import Mathlib

/-!
Verification of the concurrency-primitive CORE described by the repository's
specification.  The repository's Go files are demonstration programs built on
the primitive library (Go's `sync` package); the primitives themselves are not
part of the sources, only their callers are.  Following the specification, each
primitive is modelled here as explicit state with executable operations; a
serialised operation order stands in for the arrival order of concurrent
callers (every primitive here serialises its critical work behind an internal
lock, so an interleaving of M callers is equivalent to processing them in some
total order).
-/

/-- Outcome of a gate-protected action: success, or a captured failure. -/
inductive Outcome where
  | ok : Outcome
  | failed : String → Outcome
deriving DecidableEq

/-- An action handed to the gate: transforms the shared state and yields an
outcome (`σ` is the state the action mutates, e.g. the `count` variable of
`basicOnce` / `onceCalls`). -/
def GateAction (σ : Type) : Type := σ → σ × Outcome

/-- Modelled from the spec: the `OneTimeGate` (`sync.Once`), whose
implementation is not among the repository sources — only its callers
(`basicOnce`, `onceCalls`, `ConnectionPool.Connect`) are.  State is the
tri-state collapsed to a fired flag (in-progress is invisible to the
serialised order) plus the stored outcome of the single execution. -/
structure OneTimeGate where
  fired : Bool
  outcome : Outcome
deriving DecidableEq

/-- A gate that has never fired. -/
def OneTimeGate.fresh : OneTimeGate := ⟨false, Outcome.ok⟩

/-- `Do(action)`: the first call executes the action and records its outcome;
every later call returns the recorded outcome without executing anything. -/
def gateDo {σ : Type} (g : OneTimeGate) (a : GateAction σ) (s : σ) :
    OneTimeGate × σ × Outcome :=
  if g.fired then (g, s, g.outcome)
  else (⟨true, (a s).2⟩, (a s).1, (a s).2)

/-- Process a list of `Do` calls against one gate instance — the list is the
serialisation order of the M callers — collecting each call's outcome. -/
def gateRun {σ : Type} (g : OneTimeGate) (acts : List (GateAction σ)) (s : σ) :
    OneTimeGate × σ × List Outcome :=
  match acts with
  | [] => (g, s, [])
  | a :: rest =>
    let r := gateDo g a s
    let r2 := gateRun r.1 rest r.2.1
    (r2.1, r2.2.1, r.2.2 :: r2.2.2)

/-- On an already-fired gate a whole sequence of `Do` calls changes nothing and
every call returns the stored outcome. -/
theorem gateRun_fired {σ : Type} (acts : List (GateAction σ)) (g : OneTimeGate)
    (s : σ) (h : g.fired = true) :
    gateRun g acts s = (g, s, List.replicate acts.length g.outcome) := by
  induction acts with
  | nil => rfl
  | cons a rest ih =>
    simp [gateRun, gateDo, h, ih, List.replicate_succ]

/-- The `increment` closure of `onceCalls` (`count++`). -/
def incrementA : GateAction Int := fun c => (c + 1, Outcome.ok)

/-- The `decrement` closure of `onceCalls` (`count--`). -/
def decrementA : GateAction Int := fun c => (c - 1, Outcome.ok)

/-- Claim C1: for every gate instance and M callers invoking `Do` in any
serialisation order, each with a possibly distinct action, exactly one action
(the first to arrive) is executed, exactly once — the final shared state is
the state after a single application of that action — and all M calls return
that single execution's outcome. -/
theorem gate_single_execution {σ : Type} (a : GateAction σ) (rest : List (GateAction σ))
    (s : σ) :
    gateRun OneTimeGate.fresh (a :: rest) s =
      (⟨true, (a s).2⟩, (a s).1, List.replicate (rest.length + 1) (a s).2) := by
  simp [gateRun, gateDo, OneTimeGate.fresh,
    gateRun_fired rest ⟨true, (a s).2⟩ (a s).1 rfl, List.replicate_succ]

/-- Claim C2: a `Do` call on an already-fired gate executes nothing — whatever
action it is passed — and in the `onceCalls` demo `Do(increment)` followed by
`Do(decrement)` on a fresh gate leaves the counter at 1, not 0. -/
theorem gate_counts_calls_not_actions {σ : Type} (g : OneTimeGate)
    (h : g.fired = true) (b : GateAction σ) (s : σ) :
    gateDo g b s = (g, s, g.outcome) ∧
      (gateRun OneTimeGate.fresh [incrementA, decrementA] 0).2.1 = 1 := by
  constructor
  · simp [gateDo, h]
  · rfl

/-- Witness for C2 at a concrete fired gate and action. -/
theorem gate_counts_calls_not_actions_witness :
    (⟨true, Outcome.ok⟩ : OneTimeGate).fired = true ∧
      (gateDo ⟨true, Outcome.ok⟩ incrementA (0 : Int) =
          (⟨true, Outcome.ok⟩, 0, Outcome.ok) ∧
        (gateRun OneTimeGate.fresh [incrementA, decrementA] 0).2.1 = 1) :=
  ⟨rfl, gate_counts_calls_not_actions ⟨true, Outcome.ok⟩ rfl incrementA 0⟩

/-- The `ConnectionPool` of the `sync.Once` error-handling demo: a gate, the
connection string and the recorded error. -/
structure ConnectionPool where
  once : OneTimeGate
  conn : String
  err : Option String
deriving DecidableEq

/-- A pool that has never attempted to connect. -/
def ConnectionPool.start : ConnectionPool := ⟨OneTimeGate.fresh, "", none⟩

/-- The closure passed to `once.Do` inside `Connect`: depending on the
environment (`fails`, the parity test in the source) it either records
`connection failed` in `cp.err` or sets `cp.conn`. -/
def connectAction (fails : Bool) : GateAction (String × Option String) :=
  fun st =>
    if fails then ((st.1, some "connection failed"), Outcome.failed "connection failed")
    else (("connected", st.2), Outcome.ok)

/-- `ConnectionPool.Connect`: runs the connection attempt through the gate and
returns `cp.err` — the recorded error, whatever call this is. -/
def ConnectionPool.Connect (cp : ConnectionPool) (fails : Bool) :
    ConnectionPool × Option String :=
  let r := gateDo cp.once (connectAction fails) (cp.conn, cp.err)
  (⟨r.1, r.2.1.1, r.2.1.2⟩, r.2.1.2)

/-- Repeated `Connect` calls, each with its own environment flag, collecting
the returned errors. -/
def connectRun (cp : ConnectionPool) (flags : List Bool) :
    ConnectionPool × List (Option String) :=
  match flags with
  | [] => (cp, [])
  | f :: rest =>
    let r := cp.Connect f
    let r2 := connectRun r.1 rest
    (r2.1, r.2 :: r2.2)

/-- `Connect` on a pool whose gate has fired changes nothing and returns the
recorded error. -/
theorem connectRun_fired (flags : List Bool) (cp : ConnectionPool)
    (h : cp.once.fired = true) :
    connectRun cp flags = (cp, List.replicate flags.length cp.err) := by
  induction flags with
  | nil => rfl
  | cons f rest ih =>
    simp [connectRun, ConnectionPool.Connect, gateDo, h, ih, List.replicate_succ]

/-- Claim C3: if the first `Connect` attempt fails, the failure is permanently
recorded: every later `Connect` — even in an environment where a retry would
succeed — returns the same recorded failure, leaves the pool unchanged, and
never re-invokes the connection action. -/
theorem connect_failure_permanent (flags : List Bool) :
    (ConnectionPool.start.Connect true).2 = some "connection failed" ∧
      connectRun (ConnectionPool.start.Connect true).1 flags =
        ((ConnectionPool.start.Connect true).1,
          List.replicate flags.length (some "connection failed")) := by
  refine ⟨rfl, ?_⟩
  exact connectRun_fired flags _ rfl

/-- Modelled from the spec: the `CompletionCounter` (`sync.WaitGroup`), whose
implementation is not among the repository sources — only its callers
(`visualizeCounter`, `basicWaitGroup`, ...) are.  State is the outstanding
count; driving it negative is the fatal usage error of the spec. -/
structure CompletionCounter where
  counter : Int
deriving DecidableEq

/-- `Add(n)`: adjusts the counter; a decrement below zero is detected and
reported as a fatal usage error, never recorded as a negative counter. -/
def CompletionCounter.Add (wg : CompletionCounter) (n : Int) :
    Except String CompletionCounter :=
  if wg.counter + n < 0 then Except.error "sync: negative WaitGroup counter"
  else Except.ok ⟨wg.counter + n⟩

/-- `Done()` is `Add(-1)`. -/
def CompletionCounter.Done (wg : CompletionCounter) :
    Except String CompletionCounter :=
  wg.Add (-1)

/-- `Wait()` blocks until the counter reaches zero; `WaitReady` is the
unblocking condition — a blocked `Wait` returns exactly when it holds. -/
def CompletionCounter.WaitReady (wg : CompletionCounter) : Bool :=
  wg.counter == 0

/-- `k` successive `Done()` calls. -/
def doneN (wg : CompletionCounter) : Nat → Except String CompletionCounter
  | 0 => Except.ok wg
  | k + 1 => wg.Done.bind fun w => doneN w k

/-- Claim C4: `Done()` has exactly the effect of `Add(-1)`; after `Add(5)` and
5 `Done()` calls the counter is zero, so a blocked `Wait()` returns; a 6th
`Done()` would drive the counter negative and is flagged deterministically as
a fatal usage error instead of leaving a negative counter. -/
theorem counter_done_is_add_neg_one :
    (∀ wg : CompletionCounter, wg.Done = wg.Add (-1)) ∧
      ((CompletionCounter.mk 0).Add 5).bind (fun w => doneN w 5) =
        Except.ok ⟨0⟩ ∧
      CompletionCounter.WaitReady ⟨0⟩ = true ∧
      ((CompletionCounter.mk 0).Add 5).bind (fun w => doneN w 6) =
        Except.error "sync: negative WaitGroup counter" :=
  ⟨fun _ => rfl, rfl, rfl, rfl⟩

/-- Modelled from the spec: the `ExclusiveLock` (`sync.Mutex`), whose
implementation is not among the repository sources — only its callers
(`printSum`, `basicMutex`, ...) are.  The lock state is the held flag;
release of an unheld lock is the usage error of the spec. -/
structure ExclusiveLock where
  held : Bool
deriving DecidableEq

/-- `Acquire()` (serialised view): succeeds when the lock is free. -/
def ExclusiveLock.Acquire (l : ExclusiveLock) : Option ExclusiveLock :=
  if l.held then none else some ⟨true⟩

/-- `Release()`: frees a held lock; releasing an unheld lock is detected and
reported deterministically as a fatal usage error. -/
def ExclusiveLock.Release (l : ExclusiveLock) : Except String ExclusiveLock :=
  if l.held then Except.ok ⟨false⟩
  else Except.error "sync: unlock of unlocked mutex"

/-- Claim C7: calling `Release()` on a lock that is not held is reported
deterministically as a fatal usage error with a diagnostic — it is never a
silent no-op (`Except.ok` with the same state) and never state corruption. -/
theorem release_unheld_is_fatal (l : ExclusiveLock) (h : l.held = false) :
    l.Release = Except.error "sync: unlock of unlocked mutex" ∧
      ∀ l' : ExclusiveLock, l.Release ≠ Except.ok l' := by
  refine ⟨by simp [ExclusiveLock.Release, h], ?_⟩
  intro l'
  simp [ExclusiveLock.Release, h]

/-- Witness for C7 at the concrete free lock. -/
theorem release_unheld_is_fatal_witness :
    (⟨false⟩ : ExclusiveLock).held = false ∧
      ((⟨false⟩ : ExclusiveLock).Release =
          Except.error "sync: unlock of unlocked mutex" ∧
        ∀ l' : ExclusiveLock, (⟨false⟩ : ExclusiveLock).Release ≠ Except.ok l') :=
  ⟨rfl, release_unheld_is_fatal ⟨false⟩ rfl⟩

/-- A pooled object: a construction identity plus mutable contents (modelling
e.g. a `bytes.Buffer`'s accumulated bytes). -/
structure PoolObj where
  id : Nat
  contents : String
deriving DecidableEq

/-- The constructor callback (`New`): a fresh, empty object. -/
def poolNew (n : Nat) : PoolObj := ⟨n, ""⟩

/-- Modelled from the spec: the `ObjectPool` (`sync.Pool`), whose
implementation is not among the repository sources — only its callers
(`basicPool`, `commonPitfalls`, `BufferPool`) are.  State is the free list of
returned objects plus the construction counter (`created` counts constructor
invocations; objects are tagged with it as their identity). -/
structure ObjectPool where
  freeList : List PoolObj
  created : Nat
deriving DecidableEq

/-- A pool with a fresh (empty) free list and no constructions yet. -/
def ObjectPool.fresh : ObjectPool := ⟨[], 0⟩

/-- `Acquire()`: an idle object from the free list if there is one, otherwise
a freshly constructed one (bumping the construction counter). -/
def ObjectPool.Acquire (p : ObjectPool) : PoolObj × ObjectPool :=
  match p.freeList with
  | o :: rest => (o, ⟨rest, p.created⟩)
  | [] => (poolNew p.created, ⟨[], p.created + 1⟩)

/-- `Release(obj)`: returns the object to the free list as-is — no reset, no
validation. -/
def ObjectPool.Release (p : ObjectPool) (o : PoolObj) : ObjectPool :=
  ⟨o :: p.freeList, p.created⟩

/-- Eviction (GC clearing the pool): discards the free list. -/
def ObjectPool.evict (p : ObjectPool) : ObjectPool := ⟨[], p.created⟩

/-- Claim C8: on a pool with a fresh (empty) free list, Acquire / Release /
Acquire with no intervening eviction hands back the same logical instance and
performs exactly one construction in total (on `ObjectPool.fresh` the counter
is then exactly 1); with an eviction in between, the second Acquire constructs
a distinct fresh instance and the construction counter increments again. -/
theorem pool_roundtrip_reuses (p : ObjectPool) (h : p.freeList = []) :
    ((p.Acquire.2.Release p.Acquire.1).Acquire.1 = p.Acquire.1 ∧
      (p.Acquire.2.Release p.Acquire.1).Acquire.2.created = p.created + 1) ∧
      ((p.Acquire.2.Release p.Acquire.1).evict.Acquire.1 ≠ p.Acquire.1 ∧
        (p.Acquire.2.Release p.Acquire.1).evict.Acquire.2.created =
          p.created + 2) := by
  simp [ObjectPool.Acquire, ObjectPool.Release, ObjectPool.evict, h, poolNew]

/-- Witness for C8 at the fresh pool: the construction counter stays at 1
without eviction and reaches 2 under eviction. -/
theorem pool_roundtrip_reuses_witness :
    ObjectPool.fresh.freeList = [] ∧
      (((ObjectPool.fresh.Acquire.2.Release
            ObjectPool.fresh.Acquire.1).Acquire.1 =
          ObjectPool.fresh.Acquire.1 ∧
        (ObjectPool.fresh.Acquire.2.Release
            ObjectPool.fresh.Acquire.1).Acquire.2.created = 1) ∧
        ((ObjectPool.fresh.Acquire.2.Release
              ObjectPool.fresh.Acquire.1).evict.Acquire.1 ≠
            ObjectPool.fresh.Acquire.1 ∧
          (ObjectPool.fresh.Acquire.2.Release
              ObjectPool.fresh.Acquire.1).evict.Acquire.2.created = 2)) :=
  ⟨rfl, pool_roundtrip_reuses ObjectPool.fresh rfl⟩

/-- Claim C9: `Release(obj)` stores the object exactly as handed in — its
mutable contents are not reset or validated — and an immediate re-`Acquire`
hands the very same object back, stale state included; in particular the
`commonPitfalls` scenario: a buffer released after writing `secret data`
comes back still holding `secret data`. -/
theorem release_keeps_object_state (p : ObjectPool) (o : PoolObj) :
    (p.Release o).Acquire = (o, p) ∧
      ((ObjectPool.fresh.Release ⟨0, "secret data"⟩).Acquire.1.contents =
        "secret data") := by
  constructor
  · simp [ObjectPool.Release, ObjectPool.Acquire]
  · rfl

/-- The `BufferPool` wrapper from the sources: a `sync.Pool` of buffers whose
`Put` resets the buffer before pooling it. -/
structure BufferPool where
  pool : ObjectPool
deriving DecidableEq

/-- `bytes.Buffer.Reset`: empties the buffer's contents. -/
def PoolObj.Reset (o : PoolObj) : PoolObj := ⟨o.id, ""⟩

/-- `BufferPool.Get`: straight delegation to the underlying pool. -/
def BufferPool.Get (bp : BufferPool) : PoolObj × BufferPool :=
  (bp.pool.Acquire.1, ⟨bp.pool.Acquire.2⟩)

/-- `BufferPool.Put`: resets the buffer, then returns it to the underlying
pool (the source's `buf.Reset(); bp.pool.Put(buf)`). -/
def BufferPool.Put (bp : BufferPool) (buf : PoolObj) : BufferPool :=
  ⟨bp.pool.Release buf.Reset⟩

/-- Claim C10: `BufferPool.Put` always resets the buffer before pooling it:
the object pushed onto the free list is exactly the reset of the buffer, whose
contents have length zero — so every buffer that re-enters the free list
through `BufferPool.Put` is empty at the moment it is pooled. -/
theorem bufferpool_put_resets (bp : BufferPool) (buf : PoolObj) :
    (bp.Put buf).pool.freeList = buf.Reset :: bp.pool.freeList ∧
      buf.Reset.contents.length = 0 := by
  constructor
  · rfl
  · rfl

/-- Modelled from the spec: the `SharedExclusiveLock` (`sync.RWMutex`), whose
implementation is not among the repository sources — only its callers
(`basicRWMutex`, `Cache`, ...) are.  State is the reader count, the
writer-held flag and the count of queued writers; the admission rule for new
readers is the spec's mandatory anti-writer-starvation policy. -/
structure SharedExclusiveLock where
  readers : Nat
  writerHeld : Bool
  writersQueued : Nat
deriving DecidableEq

/-- The events of the reader/writer lock: a writer joining the queue, a queued
writer acquiring, a writer releasing, a new reader acquiring, a reader
releasing. -/
inductive RWOp where
  | enqueueWrite : RWOp
  | acquireWrite : RWOp
  | releaseWrite : RWOp
  | acquireRead : RWOp
  | releaseRead : RWOp
deriving DecidableEq

/-- One transition of the reader/writer lock; `none` means the event is not
enabled in this state (the caller stays blocked).  A new reader is admitted
only when no writer holds the lock and no writer is queued. -/
def rwStep (s : SharedExclusiveLock) : RWOp → Option SharedExclusiveLock
  | RWOp.enqueueWrite => some ⟨s.readers, s.writerHeld, s.writersQueued + 1⟩
  | RWOp.acquireWrite =>
    if s.readers = 0 ∧ s.writerHeld = false ∧ 1 ≤ s.writersQueued then
      some ⟨0, true, s.writersQueued - 1⟩
    else none
  | RWOp.releaseWrite =>
    if s.writerHeld = true then some ⟨s.readers, false, s.writersQueued⟩
    else none
  | RWOp.acquireRead =>
    if s.writerHeld = false ∧ s.writersQueued = 0 then
      some ⟨s.readers + 1, s.writerHeld, s.writersQueued⟩
    else none
  | RWOp.releaseRead =>
    if 1 ≤ s.readers then some ⟨s.readers - 1, s.writerHeld, s.writersQueued⟩
    else none

/-- Run a sequence of reader/writer-lock events; `some` exactly when every
event was enabled when its turn came. -/
def rwRun (s : SharedExclusiveLock) : List RWOp → Option SharedExclusiveLock
  | [] => some s
  | op :: rest => (rwStep s op).bind fun s' => rwRun s' rest

/-- A writer is pending: queued, or currently holding the lock. -/
def writerPending (s : SharedExclusiveLock) : Prop :=
  1 ≤ s.writersQueued ∨ s.writerHeld = true

/-- Shifting an acquire-and-release evidence past one leading event. -/
theorem rw_shift (op : RWOp) (rest : List RWOp) (s0 s1 : SharedExclusiveLock)
    (k' : Nat) (hstep : rwStep s0 op = some s1)
    (h : ∃ j, j < k' ∧ rest.get? j = some RWOp.releaseWrite ∧
      (∃ sb, rwRun s1 (rest.take j) = some sb ∧ sb.writerHeld = true) ∧
      ∃ sj, rwRun s1 (rest.take (j + 1)) = some sj ∧
        sj.writersQueued = 0 ∧ sj.writerHeld = false) :
    ∃ j, j < k' + 1 ∧ (op :: rest).get? j = some RWOp.releaseWrite ∧
      (∃ sb, rwRun s0 ((op :: rest).take j) = some sb ∧ sb.writerHeld = true) ∧
      ∃ sj, rwRun s0 ((op :: rest).take (j + 1)) = some sj ∧
        sj.writersQueued = 0 ∧ sj.writerHeld = false := by
  obtain ⟨j, hjk, hop, ⟨sb, hrunb, hb⟩, sj, hrunj, hcond⟩ := h
  refine ⟨j + 1, by omega, by simpa using hop, ⟨sb, ?_, hb⟩, sj, ?_, hcond⟩
  · simpa [List.take_succ_cons, rwRun, hstep] using hrunb
  · simpa [List.take_succ_cons, rwRun, hstep] using hrunj

/-- While a writer is pending (queued or holding), no `acquireRead` event can
fire before some writer has acquired and then released the lock, leaving no
writer pending. -/
theorem rw_no_read_while_pending (ops : List RWOp) :
    ∀ s0 sF : SharedExclusiveLock, writerPending s0 →
      rwRun s0 ops = some sF →
      ∀ k, ops.get? k = some RWOp.acquireRead →
      ∃ j, j < k ∧ ops.get? j = some RWOp.releaseWrite ∧
        (∃ sb, rwRun s0 (ops.take j) = some sb ∧ sb.writerHeld = true) ∧
        ∃ sj, rwRun s0 (ops.take (j + 1)) = some sj ∧
          sj.writersQueued = 0 ∧ sj.writerHeld = false := by
  induction ops with
  | nil =>
    intro s0 sF _ _ k hk
    simp at hk
  | cons op rest ih =>
    intro s0 sF hp hrun k hk
    cases hstep : rwStep s0 op with
    | none => simp [rwRun, hstep] at hrun
    | some s1 =>
      rw [rwRun, hstep, Option.some_bind] at hrun
      cases k with
      | zero =>
        rw [List.get?_cons_zero, Option.some.injEq] at hk
        subst hk
        rw [rwStep] at hstep
        split at hstep
        · rcases hp with hq | hh
          · omega
          · simp_all
        · exact absurd hstep (by simp)
      | succ k' =>
        rw [List.get?_cons_succ] at hk
        cases op with
        | releaseWrite =>
          rw [rwStep] at hstep
          split at hstep
          case isFalse => exact absurd hstep (by simp)
          case isTrue hheld =>
            rw [Option.some.injEq] at hstep
            by_cases hq : s1.writersQueued = 0
            · refine ⟨0, by omega, rfl, ⟨s0, rfl, hheld⟩, s1, ?_, hq, ?_⟩
              · simp [rwRun, rwStep, hheld, hstep]
              · rw [← hstep]
            · refine rw_shift _ _ _ _ _ ?_ (ih s1 sF (Or.inl (by omega)) hrun k' hk)
              rw [rwStep, if_pos hheld, hstep]
        | enqueueWrite =>
          rw [rwStep, Option.some.injEq] at hstep
          refine rw_shift _ _ _ _ _ ?_ (ih s1 sF (Or.inl ?_) hrun k' hk)
          · rw [rwStep, hstep]
          · rw [← hstep]
            exact Nat.le_add_left 1 _
        | acquireWrite =>
          rw [rwStep] at hstep
          split at hstep
          case isFalse => exact absurd hstep (by simp)
          case isTrue hg =>
            rw [Option.some.injEq] at hstep
            refine rw_shift _ _ _ _ _ ?_ (ih s1 sF (Or.inr ?_) hrun k' hk)
            · rw [rwStep, if_pos hg, hstep]
            · rw [← hstep]
        | acquireRead =>
          rw [rwStep] at hstep
          split at hstep
          case isFalse => exact absurd hstep (by simp)
          case isTrue hg =>
            rcases hp with hq | hh
            · omega
            · rw [hg.1] at hh
              exact absurd hh (by simp)
        | releaseRead =>
          rw [rwStep] at hstep
          split at hstep
          case isFalse => exact absurd hstep (by simp)
          case isTrue hg =>
            rw [Option.some.injEq] at hstep
            refine rw_shift _ _ _ _ _ ?_ (ih s1 sF ?_ hrun k' hk)
            · rw [rwStep, if_pos hg, hstep]
            · rw [← hstep]
              exact hp

/-- Claim C5: once a writer is queued on the `SharedExclusiveLock` — even
while readers still hold it — no new reader is admitted until a writer has
both acquired and released the lock: every `acquireRead` in a valid event
sequence is preceded by a `releaseWrite` performed from a writer-held state
and leaving no writer pending. -/
theorem writer_queued_blocks_new_readers (s0 sF : SharedExclusiveLock)
    (ops : List RWOp) (hq : 1 ≤ s0.writersQueued)
    (hrun : rwRun s0 ops = some sF) (k : Nat)
    (hk : ops.get? k = some RWOp.acquireRead) :
    ∃ j, j < k ∧ ops.get? j = some RWOp.releaseWrite ∧
      (∃ sb, rwRun s0 (ops.take j) = some sb ∧ sb.writerHeld = true) ∧
      ∃ sj, rwRun s0 (ops.take (j + 1)) = some sj ∧
        sj.writersQueued = 0 ∧ sj.writerHeld = false :=
  rw_no_read_while_pending ops s0 sF (Or.inl hq) hrun k hk

/-- Witness for C5: two readers hold the lock while one writer is queued; the
readers drain, the writer acquires and releases, and only then is a new
reader admitted (the `acquireRead` at position 4, the `releaseWrite` at
position 3). -/
theorem writer_queued_blocks_new_readers_witness :
    1 ≤ (⟨2, false, 1⟩ : SharedExclusiveLock).writersQueued ∧
      rwRun ⟨2, false, 1⟩ [RWOp.releaseRead, RWOp.releaseRead,
          RWOp.acquireWrite, RWOp.releaseWrite, RWOp.acquireRead] =
        some ⟨1, false, 0⟩ ∧
      [RWOp.releaseRead, RWOp.releaseRead, RWOp.acquireWrite,
          RWOp.releaseWrite, RWOp.acquireRead].get? 4 =
        some RWOp.acquireRead ∧
      ∃ j, j < 4 ∧ [RWOp.releaseRead, RWOp.releaseRead, RWOp.acquireWrite,
          RWOp.releaseWrite, RWOp.acquireRead].get? j =
            some RWOp.releaseWrite ∧
        (∃ sb, rwRun ⟨2, false, 1⟩ ([RWOp.releaseRead, RWOp.releaseRead,
            RWOp.acquireWrite, RWOp.releaseWrite, RWOp.acquireRead].take j) =
              some sb ∧ sb.writerHeld = true) ∧
        ∃ sj, rwRun ⟨2, false, 1⟩ ([RWOp.releaseRead, RWOp.releaseRead,
            RWOp.acquireWrite, RWOp.releaseWrite, RWOp.acquireRead].take
              (j + 1)) = some sj ∧
          sj.writersQueued = 0 ∧ sj.writerHeld = false :=
  ⟨by decide, by decide, by decide,
    writer_queued_blocks_new_readers ⟨2, false, 1⟩ ⟨1, false, 0⟩ _
      (by decide) (by decide) 4 (by decide)⟩

/-- Phase of a thread with respect to the condition variable's `Wait`
protocol: not inside `Wait`; suspended inside `Wait` (on the waiter queue);
signalled and re-acquiring the lock inside `Wait`; or returned from `Wait`
(holding the lock again). -/
inductive WPhase where
  | running : WPhase
  | waiting : WPhase
  | woken : WPhase
  | returned : WPhase
deriving DecidableEq

/-- Modelled from the spec: the `ConditionVariable` (`sync.Cond`), whose
implementation is not among the repository sources — only its callers
(`basicCond`, `condWaitBehavior`, ...) are.  State is the holder of the
associated lock, the ordered waiter queue, and each thread's phase (thread
`t` is index `t` of `phase`).  `Wait`'s release-of-lock and enqueue are one
atomic transition (`waitCall`), per the spec's logically-atomic unit. -/
structure ConditionVariable where
  owner : Option Nat
  queue : List Nat
  phase : List WPhase
deriving DecidableEq

/-- The events of the condition-variable protocol: plain lock acquire and
release, the atomic release-suspend entry of `Wait`, a `Signal` waking the
oldest waiter, and the re-acquisition with which `Wait` returns. -/
inductive CVOp where
  | lockAcquire : Nat → CVOp
  | lockRelease : Nat → CVOp
  | waitCall : Nat → CVOp
  | signal : CVOp
  | waitResume : Nat → CVOp
deriving DecidableEq

/-- One transition of the condition-variable protocol; `none` means the event
is not enabled (the caller stays blocked). -/
def cvStep (s : ConditionVariable) : CVOp → Option ConditionVariable
  | CVOp.lockAcquire t =>
    if s.owner = none ∧ s.phase[t]? = some WPhase.running then
      some ⟨some t, s.queue, s.phase⟩
    else none
  | CVOp.lockRelease t =>
    if s.owner = some t then
      some ⟨none, s.queue, s.phase.set t WPhase.running⟩
    else none
  | CVOp.waitCall t =>
    if s.owner = some t ∧ (s.phase[t]? = some WPhase.running ∨
        s.phase[t]? = some WPhase.returned) then
      some ⟨none, s.queue ++ [t], s.phase.set t WPhase.waiting⟩
    else none
  | CVOp.signal =>
    match s.queue with
    | [] => some s
    | w :: ws => some ⟨s.owner, ws, s.phase.set w WPhase.woken⟩
  | CVOp.waitResume t =>
    if s.owner = none ∧ s.phase[t]? = some WPhase.woken then
      some ⟨some t, s.queue, s.phase.set t WPhase.returned⟩
    else none

/-- Run a sequence of condition-variable events; `some` exactly when every
event was enabled when its turn came. -/
def cvRun (s : ConditionVariable) : List CVOp → Option ConditionVariable
  | [] => some s
  | op :: rest => (cvStep s op).bind fun s' => cvRun s' rest

/-- The initial state: lock free, no waiters, `n` threads outside `Wait`. -/
def cvInit (n : Nat) : ConditionVariable :=
  ⟨none, [], List.replicate n WPhase.running⟩

/-- The protocol invariant: every queued thread is suspended in `Wait` and
vice versa (a waiter that has given up the lock is already queued — there is
no window), a thread whose `Wait` has returned holds the lock, the queue has
no duplicates, and no suspended or signalled thread holds the lock. -/
structure CVInv (s : ConditionVariable) : Prop where
  queue_waiting : ∀ t ∈ s.queue, s.phase[t]? = some WPhase.waiting
  waiting_queued : ∀ t, s.phase[t]? = some WPhase.waiting → t ∈ s.queue
  returned_owns : ∀ t, s.phase[t]? = some WPhase.returned → s.owner = some t
  nodup_queue : s.queue.Nodup
  blocked_not_owner : ∀ t, (s.phase[t]? = some WPhase.waiting ∨
      s.phase[t]? = some WPhase.woken) → s.owner ≠ some t

/-- An index that reads back as `some` is in range. -/
theorem getElem?_some_lt {α : Type} {l : List α} {i : Nat} {a : α}
    (h : l[i]? = some a) : i < l.length := by
  by_contra hlt
  rw [List.getElem?_eq_none (Nat.le_of_not_lt hlt)] at h
  cases h

/-- Every enabled condition-variable transition preserves the invariant. -/
theorem cvStep_inv {s s' : ConditionVariable} {op : CVOp} (hinv : CVInv s)
    (hstep : cvStep s op = some s') : CVInv s' := by
  obtain ⟨hqw, hwq, hro, hnd, hbo⟩ := hinv
  cases op with
  | lockAcquire t =>
    rw [cvStep] at hstep
    split at hstep
    case isFalse => exact absurd hstep (by simp)
    case isTrue hg =>
      rw [Option.some.injEq] at hstep
      subst hstep
      refine ⟨hqw, hwq, ?_, hnd, ?_⟩
      · intro u hu
        have h := hro u hu
        rw [hg.1] at h
        cases h
      · intro u hu heq
        rw [Option.some.injEq] at heq
        subst heq
        rcases hu with h | h <;> rw [hg.2] at h <;> cases h
  | lockRelease t =>
    rw [cvStep] at hstep
    split at hstep
    case isFalse => exact absurd hstep (by simp)
    case isTrue hg =>
      rw [Option.some.injEq] at hstep
      subst hstep
      have htb : s.phase[t]? ≠ some WPhase.waiting ∧
          s.phase[t]? ≠ some WPhase.woken := by
        constructor <;> intro h
        · exact hbo t (Or.inl h) hg
        · exact hbo t (Or.inr h) hg
      refine ⟨?_, ?_, ?_, hnd, by simp⟩
      · intro u hu
        have hw := hqw u hu
        have hne : t ≠ u := by
          intro h
          subst h
          exact htb.1 hw
        rw [List.getElem?_set_ne hne]
        exact hw
      · intro u hu
        by_cases hut : t = u
        · subst hut
          rw [List.getElem?_set] at hu
          simp at hu
        · rw [List.getElem?_set_ne hut] at hu
          exact hwq u hu
      · intro u hu
        by_cases hut : t = u
        · subst hut
          rw [List.getElem?_set] at hu
          simp at hu
        · rw [List.getElem?_set_ne hut] at hu
          have := hro u hu
          rw [hg] at this
          rw [Option.some.injEq] at this
          exact absurd this hut
  | waitCall t =>
    rw [cvStep] at hstep
    split at hstep
    case isFalse => exact absurd hstep (by simp)
    case isTrue hg =>
      rw [Option.some.injEq] at hstep
      subst hstep
      have htl : t < s.phase.length := by
        rcases hg.2 with h | h <;> exact getElem?_some_lt h
      have htq : t ∉ s.queue := by
        intro h
        have hw := hqw t h
        rcases hg.2 with h2 | h2 <;> rw [h2] at hw <;> cases hw
      refine ⟨?_, ?_, ?_, ?_, by simp⟩
      · intro u hu
        rcases List.mem_append.mp hu with h | h
        · have hne : t ≠ u := by
            intro he
            subst he
            exact htq h
          rw [List.getElem?_set_ne hne]
          exact hqw u h
        · simp at h
          subst h
          rw [List.getElem?_set_eq_of_lt _ htl]
      · intro u hu
        by_cases hut : t = u
        · subst hut
          exact List.mem_append.mpr (Or.inr (by simp))
        · rw [List.getElem?_set_ne hut] at hu
          exact List.mem_append.mpr (Or.inl (hwq u hu))
      · intro u hu
        by_cases hut : t = u
        · subst hut
          rw [List.getElem?_set_eq_of_lt _ htl] at hu
          cases hu
        · rw [List.getElem?_set_ne hut] at hu
          have h := hro u hu
          rw [hg.1] at h
          rw [Option.some.injEq] at h
          exact absurd h hut
      · refine hnd.append (List.nodup_singleton t) ?_
        intro u hu hmem
        simp at hmem
        subst hmem
        exact htq hu
  | signal =>
    rw [cvStep] at hstep
    cases hq : s.queue with
    | nil =>
      rw [hq] at hstep
      rw [Option.some.injEq] at hstep
      subst hstep
      exact ⟨hqw, hwq, hro, hnd, hbo⟩
    | cons w ws =>
      rw [hq] at hstep
      rw [Option.some.injEq] at hstep
      subst hstep
      have hwmem : w ∈ s.queue := by rw [hq]; exact List.mem_cons_self w ws
      have hwl : w < s.phase.length := getElem?_some_lt (hqw w hwmem)
      have hwnd : w ∉ ws := by
        rw [hq] at hnd
        exact (List.nodup_cons.mp hnd).1
      refine ⟨?_, ?_, ?_, ?_, ?_⟩
      · intro u hu
        have hum : u ∈ s.queue := by rw [hq]; exact List.mem_cons_of_mem w hu
        have hne : w ≠ u := by
          intro h
          subst h
          exact hwnd hu
        rw [List.getElem?_set_ne hne]
        exact hqw u hum
      · intro u hu
        by_cases huw : w = u
        · subst huw
          rw [List.getElem?_set_eq_of_lt _ hwl] at hu
          cases hu
        · rw [List.getElem?_set_ne huw] at hu
          have := hwq u hu
          rw [hq] at this
          rcases List.mem_cons.mp this with h | h
          · exact absurd h.symm huw
          · exact h
      · intro u hu
        by_cases huw : w = u
        · subst huw
          rw [List.getElem?_set_eq_of_lt _ hwl] at hu
          cases hu
        · rw [List.getElem?_set_ne huw] at hu
          exact hro u hu
      · rw [hq] at hnd
        exact (List.nodup_cons.mp hnd).2
      · intro u hu
        by_cases huw : w = u
        · subst huw
          exact hbo w (Or.inl (hqw w hwmem))
        · rw [List.getElem?_set_ne huw] at hu
          exact hbo u hu
  | waitResume t =>
    rw [cvStep] at hstep
    split at hstep
    case isFalse => exact absurd hstep (by simp)
    case isTrue hg =>
      rw [Option.some.injEq] at hstep
      subst hstep
      have htl : t < s.phase.length := getElem?_some_lt hg.2
      have htq : t ∉ s.queue := by
        intro h
        have hw := hqw t h
        rw [hg.2] at hw
        cases hw
      refine ⟨?_, ?_, ?_, hnd, ?_⟩
      · intro u hu
        have hne : t ≠ u := by
          intro h
          subst h
          exact htq hu
        rw [List.getElem?_set_ne hne]
        exact hqw u hu
      · intro u hu
        by_cases hut : t = u
        · subst hut
          rw [List.getElem?_set_eq_of_lt _ htl] at hu
          cases hu
        · rw [List.getElem?_set_ne hut] at hu
          exact hwq u hu
      · intro u hu
        by_cases hut : t = u
        · subst hut
          rfl
        · rw [List.getElem?_set_ne hut] at hu
          have h := hro u hu
          rw [hg.1] at h
          cases h
      · intro u hu heq
        rw [Option.some.injEq] at heq
        subst heq
        rcases hu with h | h <;>
          rw [List.getElem?_set_eq_of_lt _ htl] at h <;> cases h

/-- The invariant holds along every valid run. -/
theorem cvRun_inv (ops : List CVOp) :
    ∀ s s' : ConditionVariable, CVInv s → cvRun s ops = some s' → CVInv s' := by
  induction ops with
  | nil =>
    intro s s' hinv hrun
    rw [cvRun, Option.some.injEq] at hrun
    subst hrun
    exact hinv
  | cons op rest ih =>
    intro s s' hinv hrun
    cases hstep : cvStep s op with
    | none => simp [cvRun, hstep] at hrun
    | some s1 =>
      rw [cvRun, hstep, Option.some_bind] at hrun
      exact ih s1 s' (cvStep_inv hinv hstep) hrun

/-- The initial state satisfies the invariant. -/
theorem cvInit_inv (n : Nat) : CVInv (cvInit n) := by
  refine ⟨?_, ?_, ?_, List.nodup_nil, ?_⟩
  · intro t ht
    cases ht
  · intro t ht
    rw [cvInit] at ht
    simp only [List.getElem?_replicate] at ht
    split at ht <;> cases ht
  · intro t ht
    rw [cvInit] at ht
    simp only [List.getElem?_replicate] at ht
    split at ht <;> cases ht
  · intro t _
    simp [cvInit]

/-- Claim C6: in every reachable state of the condition-variable protocol —
`Wait`'s release-of-lock, suspension and enqueue being one atomic transition,
per the spec — a thread whose `Wait` has returned holds the associated lock,
and a thread suspended inside `Wait` is always on the waiter queue: there is
no reachable state in which the lock has been given up by a waiter that is
not yet queued. -/
theorem cond_wait_atomic (n : Nat) (ops : List CVOp) (s : ConditionVariable)
    (t : Nat) (hrun : cvRun (cvInit n) ops = some s) :
    (s.phase[t]? = some WPhase.returned → s.owner = some t) ∧
      (s.phase[t]? = some WPhase.waiting → t ∈ s.queue) :=
  have hinv := cvRun_inv ops (cvInit n) s (cvInit_inv n) hrun
  ⟨hinv.returned_owns t, hinv.waiting_queued t⟩

/-- Witness for C6: one thread acquires the lock, enters `Wait`, is
signalled, and resumes; in the resulting state its `Wait` has returned and it
holds the lock. -/
theorem cond_wait_atomic_witness :
    cvRun (cvInit 1) [CVOp.lockAcquire 0, CVOp.waitCall 0, CVOp.signal,
        CVOp.waitResume 0] =
      some ⟨some 0, [], [WPhase.returned]⟩ ∧
      (((⟨some 0, [], [WPhase.returned]⟩ : ConditionVariable).phase[0]? =
            some WPhase.returned →
          (⟨some 0, [], [WPhase.returned]⟩ : ConditionVariable).owner =
            some 0) ∧
        ((⟨some 0, [], [WPhase.returned]⟩ : ConditionVariable).phase[0]? =
            some WPhase.waiting →
          0 ∈ (⟨some 0, [], [WPhase.returned]⟩ : ConditionVariable).queue)) :=
  ⟨by decide,
    cond_wait_atomic 1 [CVOp.lockAcquire 0, CVOp.waitCall 0, CVOp.signal,
      CVOp.waitResume 0] ⟨some 0, [], [WPhase.returned]⟩ 0 (by decide)⟩
